import Mathlib

/-!
Verification of the concurrent web-augmentation pipeline of `web-ollama`.

We give a shallow embedding of the pipeline's core components:

* the heuristic query analyzer (`internal/analyzer/query_analyzer.go`),
* the text extractor (`internal/crawler/extractor.go`),
* the bounded fetcher and the concurrent crawler (`internal/crawler`,
  file holding `CrawlResult`, `CrawlURLs`, `crawlSingle`),
* the streaming response splitter (`internal/ollama/enhanced_client.go`),
* the multi-search URL de-duplication loop (`performMultiSearch` in `main.go`).

Go strings are embedded as `List Char` (`Str`); machine-level effects
(HTTP, scheduling, wall-clock durations) are made explicit parameters, so
every definition is executable and decidable on concrete inputs.
-/

namespace WebOllama

/-- Go strings embedded as lists of characters. -/
abbrev Str := List Char

/-- Whitespace recognizer used by `strings.Fields` / `strings.TrimSpace`
(ASCII fragment of Go's `unicode.IsSpace`). -/
def isSpace (c : Char) : Bool :=
  c = ' ' || c = '\t' || c = '\n' || c = '\r' || c = '\x0b' || c = '\x0c'

/-- `strings.ToLower` (character-wise). -/
def toLowerStr (s : Str) : Str := s.map Char.toLower

/-- `strings.TrimSpace`: drop whitespace from both ends. -/
def trimSpace (s : Str) : Str :=
  ((s.dropWhile isSpace).reverse.dropWhile isSpace).reverse

/-- Is `pre` a prefix of `s`? (case-sensitive, like Go slicing + `==`). -/
def isPrefixL : Str → Str → Bool
  | [], _ => true
  | _ :: _, [] => false
  | a :: as, b :: bs => a = b && isPrefixL as bs

/-- `strings.Contains s sub`: `sub` occurs as a contiguous substring of `s`. -/
def containsSub : Str → Str → Bool
  | [], sub => sub.isEmpty
  | s@(_ :: rest), sub => isPrefixL sub s || containsSub rest sub

/-- `strings.Join parts sep`. -/
def joinSep (sep : Str) : List Str → Str
  | [] => []
  | [w] => w
  | w :: ws => w ++ sep ++ joinSep sep ws

/-! ## Query analyzer (`internal/analyzer/query_analyzer.go`) -/

/-- The `SearchTrigger` struct returned by `AnalyzeQuery`. -/
structure SearchTrigger where
  needsSearch : Bool
  confidence : Int
  reason : Str
deriving DecidableEq, Repr

/-- Keyword table `timeSensitive` from `NewAnalyzer`. -/
def timeSensitive : List Str :=
  ["latest".toList, "current".toList, "today".toList, "now".toList,
   "recent".toList, "2024".toList, "2025".toList, "this year".toList,
   "this month".toList, "this week".toList, "breaking".toList,
   "news".toList, "updated".toList, "new".toList, "yesterday".toList,
   "live".toList, "ongoing".toList, "happening".toList]

/-- Keyword table `factualQueries` from `NewAnalyzer`. -/
def factualQueries : List Str :=
  ["what is".toList, "what are".toList, "who is".toList, "who are".toList,
   "when did".toList, "when was".toList, "where is".toList,
   "where are".toList, "how many".toList, "how much".toList,
   "which".toList, "price of".toList, "cost of".toList, "weather".toList,
   "stock".toList, "score".toList, "result".toList]

/-- Keyword table `researchQueries` from `NewAnalyzer`. -/
def researchQueries : List Str :=
  ["compare".toList, "comparison".toList, "best".toList, "top".toList,
   "review".toList, "reviews".toList, "vs".toList, "versus".toList,
   "difference between".toList, "pros and cons".toList,
   "alternatives".toList, "options".toList, "recommend".toList]

/-- Keyword table `explanationQueries` from `NewAnalyzer`. -/
def explanationQueries : List Str :=
  ["explain".toList, "how does".toList, "how do".toList,
   "why does".toList, "why do".toList, "concept of".toList,
   "teach me".toList, "tutorial".toList, "guide".toList,
   "understanding".toList, "learn".toList]

/-- Keyword table `codeQueries` from `NewAnalyzer`. -/
def codeQueries : List Str :=
  ["code".toList, "function".toList, "algorithm".toList,
   "implement".toList, "debug".toList, "error".toList, "syntax".toList,
   "program".toList, "variable".toList, "class".toList, "method".toList,
   "api".toList]

/-- `countMatches`: how many patterns occur in the query. -/
def countMatches (query : Str) (patterns : List Str) : Nat :=
  (patterns.filter (fun p => containsSub query p)).length

/-- `AnalyzeQuery`: keyword-scoring decision whether a query needs search. -/
def AnalyzeQuery (query0 : Str) : SearchTrigger :=
  let query := toLowerStr (trimSpace query0)
  if query = [] then
    { needsSearch := false, confidence := 0, reason := "empty query".toList }
  else
    let t := countMatches query timeSensitive > 0
    let f := countMatches query factualQueries > 0
    let r := countMatches query researchQueries > 0
    let e := countMatches query explanationQueries > 0
    let c := countMatches query codeQueries > 0
    let score : Int :=
      (if t then 40 else 0) + (if f then 30 else 0) + (if r then 20 else 0)
        - (if e then 30 else 0) - (if c then 40 else 0)
    let reasons : List Str :=
      (if t then ["time-sensitive".toList] else []) ++
      (if f then ["factual".toList] else []) ++
      (if r then ["research".toList] else []) ++
      (if e then ["explanation (LLM better)".toList] else []) ++
      (if c then ["code (LLM better)".toList] else [])
    let reason :=
      if reasons = [] then "general query".toList
      else joinSep ", ".toList reasons
    { needsSearch := score > 40, confidence := score, reason := reason }

/-! ## Text extractor (`internal/crawler/extractor.go`)

HTML parsing itself is done by the external library `golang.org/x/net/html`;
we embed its output as a node tree (`Node`) and translate the extractor's
tree walk. `fields` models Go's `strings.Fields` (split on whitespace,
discarding empty fields), written with an accumulator so it computes by
kernel reduction. -/

/-- `strings.Fields` worker: `w` is the reversed current word. -/
def fieldsAux : Str → Str → List Str
  | [], w => if w = [] then [] else [w.reverse]
  | c :: cs, w =>
    if isSpace c then
      if w = [] then fieldsAux cs [] else w.reverse :: fieldsAux cs []
    else fieldsAux cs (c :: w)

/-- `strings.Fields`: split on runs of whitespace, no empty fields. -/
def fields (s : Str) : List Str := fieldsAux s []

/-- `cleanText`: collapse whitespace runs to single spaces and trim. -/
def cleanText (text : Str) : Str :=
  trimSpace (joinSep [' '] (fields text))

/-- `truncateWords`: keep at most `maxWords` words, appending "..." when
truncation happens. -/
def truncateWords (text : Str) (maxWords : Nat) : Str :=
  let words := fields text
  if words.length ≤ maxWords then text
  else joinSep [' '] (words.take maxWords) ++ "...".toList

mutual
/-- HTML node trees as produced by `golang.org/x/net/html` parsing: text
nodes and element nodes with children. -/
inductive Node where
  | text (data : Str)
  | elem (tag : Str) (children : NodeList)
inductive NodeList where
  | nil
  | cons (hd : Node) (tl : NodeList)
end

/-- The non-content container tags discarded by `extractBodyText`. -/
def skipTags : List Str :=
  ["script".toList, "style".toList, "nav".toList, "footer".toList,
   "header".toList, "aside".toList]

mutual
/-- `getNodeText`: flatten all text under a node. -/
def getNodeText : Node → Str
  | .text data => data
  | .elem _ children => getNodeTextList children
def getNodeTextList : NodeList → Str
  | .nil => []
  | .cons n ns => getNodeText n ++ getNodeTextList ns
end

mutual
/-- `extractTitle`: flattened text of the first `title` element. -/
def extractTitle : Node → Str
  | .text _ => []
  | .elem tag children =>
    if tag = "title".toList then getNodeTextList children
    else extractTitleList children
def extractTitleList : NodeList → Str
  | .nil => []
  | .cons n ns =>
    let t := extractTitle n
    if t ≠ [] then t else extractTitleList ns
end

mutual
/-- `extractBodyText`: accumulate text, discarding `skipTags` subtrees;
each text node contributes its data followed by a space. -/
def extractBodyText : Node → Str
  | .text data => data ++ [' ']
  | .elem tag children =>
    if tag ∈ skipTags then [] else extractBodyTextList children
def extractBodyTextList : NodeList → Str
  | .nil => []
  | .cons n ns => extractBodyText n ++ extractBodyTextList ns
end

/-- `ExtractText` on an already-parsed document: title, then body text
cleaned and truncated to 500 words. -/
def ExtractText (doc : Node) : Str × Str :=
  (extractTitle doc, truncateWords (cleanText (extractBodyText doc)) 500)

mutual
/-- Replace the children of every `skipTags` element by the empty list;
used to state that skipped subtrees never contribute to the output. -/
def pruneSkipped : Node → Node
  | .text data => .text data
  | .elem tag children =>
    if tag ∈ skipTags then .elem tag .nil
    else .elem tag (pruneSkippedList children)
def pruneSkippedList : NodeList → NodeList
  | .nil => .nil
  | .cons n ns => .cons (pruneSkipped n) (pruneSkippedList ns)
end

/-! ### Auxiliary lemmas about `fields` -/

/-- Every word produced by `fieldsAux` from a whitespace-free accumulator is
nonempty and whitespace-free. -/
theorem fieldsAux_sound :
    ∀ (s w : Str), (∀ c ∈ w, isSpace c = false) →
      ∀ u ∈ fieldsAux s w, u ≠ [] ∧ ∀ c ∈ u, isSpace c = false := by
  intro s
  induction s with
  | nil =>
    intro w hw u hu
    by_cases h : w = []
    · simp [fieldsAux, h] at hu
    · simp [fieldsAux, h] at hu
      subst hu
      refine ⟨by simpa using h, ?_⟩
      intro c hc
      exact hw c (by simpa using hc)
  | cons c cs ih =>
    intro w hw u hu
    by_cases hsp : isSpace c
    · by_cases h : w = []
      · simp [fieldsAux, hsp, h] at hu
        exact ih [] (by simp) u hu
      · simp [fieldsAux, hsp, h] at hu
        rcases hu with hu | hu
        · subst hu
          refine ⟨by simpa using h, ?_⟩
          intro x hx
          exact hw x (by simpa using hx)
        · exact ih [] (by simp) u hu
    · simp [fieldsAux, hsp] at hu
      refine ih (c :: w) ?_ u hu
      intro x hx
      rcases List.mem_cons.mp hx with hx | hx
      · subst hx; simpa using hsp
      · exact hw x hx

/-- Every word of `fields s` is nonempty and whitespace-free. -/
theorem fields_sound (s : Str) :
    ∀ u ∈ fields s, u ≠ [] ∧ ∀ c ∈ u, isSpace c = false :=
  fieldsAux_sound s [] (by simp)

/-- A whitespace-free chunk at the front of the input goes whole into the
accumulator. -/
theorem fieldsAux_chunk :
    ∀ (w r acc : Str), (∀ c ∈ w, isSpace c = false) →
      fieldsAux (w ++ r) acc = fieldsAux r (w.reverse ++ acc) := by
  intro w
  induction w with
  | nil => intro r acc _; simp
  | cons c w' ih =>
    intro r acc hw
    have hc : isSpace c = false := hw c (by simp)
    have hw' : ∀ x ∈ w', isSpace x = false := fun x hx => hw x (by simp [hx])
    simp [fieldsAux, hc, ih r (c :: acc) hw']

/-- `fields` is a left inverse of `joinSep " "` on lists of nonempty
whitespace-free words. -/
theorem fields_joinSep :
    ∀ ws : List Str,
      (∀ w ∈ ws, w ≠ [] ∧ ∀ c ∈ w, isSpace c = false) →
      fields (joinSep [' '] ws) = ws := by
  intro ws
  induction ws with
  | nil => intro _; rfl
  | cons w ws ih =>
    intro h
    have hw := h w (by simp)
    cases ws with
    | nil =>
      show fieldsAux w [] = [w]
      have hch := fieldsAux_chunk w [] [] hw.2
      simp only [List.append_nil] at hch
      rw [hch]
      simp [fieldsAux, hw.1]
    | cons w2 ws2 =>
      have hrest : joinSep [' '] (w :: w2 :: ws2) =
          w ++ (' ' :: joinSep [' '] (w2 :: ws2)) := by
        simp [joinSep]
      show fields (joinSep [' '] (w :: w2 :: ws2)) = w :: w2 :: ws2
      rw [hrest]
      show fieldsAux (w ++ (' ' :: joinSep [' '] (w2 :: ws2))) [] =
        w :: w2 :: ws2
      rw [fieldsAux_chunk w _ [] hw.2]
      have hwr : w.reverse ≠ [] := by simpa using hw.1
      simp [fieldsAux, hwr, isSpace]
      exact ih (fun x hx => h x (by simp [hx]))

/-! ### Claims about the query analyzer -/

/-- C3: `AnalyzeQuery` is deterministic over the fixed keyword tables: on the
literal input "what is the latest news today" it computes exactly score 70
(time-sensitive +40 plus factual +30) and returns `needsSearch = true`. -/
theorem analyzeQuery_literal_latest_news_today :
    AnalyzeQuery "what is the latest news today".toList =
      { needsSearch := true, confidence := 70,
        reason := "time-sensitive, factual".toList } := by decide

/-- C2 counterexample: the query "latest AI news" matches only the
time-sensitive category (all other categories count 0 matches), yet
`AnalyzeQuery` returns `needsSearch = false`, because its score 40 is not
strictly greater than the threshold 40. -/
theorem analyzeQuery_timeOnly_counterexample :
    countMatches (toLowerStr (trimSpace "latest AI news".toList))
        timeSensitive > 0 ∧
    countMatches (toLowerStr (trimSpace "latest AI news".toList))
        factualQueries = 0 ∧
    countMatches (toLowerStr (trimSpace "latest AI news".toList))
        researchQueries = 0 ∧
    countMatches (toLowerStr (trimSpace "latest AI news".toList))
        explanationQueries = 0 ∧
    countMatches (toLowerStr (trimSpace "latest AI news".toList))
        codeQueries = 0 ∧
    (AnalyzeQuery "latest AI news".toList).needsSearch = false := by decide

/-- C2 (amended): for every nonempty query matching only time-sensitive
keywords and no other scoring category, `AnalyzeQuery` yields
`needsSearch = false` with score exactly 40 (40 is not > 40). -/
theorem analyzeQuery_timeOnly_no_search (q : Str)
    (hne : toLowerStr (trimSpace q) ≠ [])
    (ht : countMatches (toLowerStr (trimSpace q)) timeSensitive > 0)
    (hf : countMatches (toLowerStr (trimSpace q)) factualQueries = 0)
    (hr : countMatches (toLowerStr (trimSpace q)) researchQueries = 0)
    (he : countMatches (toLowerStr (trimSpace q)) explanationQueries = 0)
    (hc : countMatches (toLowerStr (trimSpace q)) codeQueries = 0) :
    (AnalyzeQuery q).needsSearch = false ∧
      (AnalyzeQuery q).confidence = 40 := by
  unfold AnalyzeQuery
  simp [hne, ht, hf, hr, he, hc]

/-- Witness for the amended C2 theorem at the concrete query
"latest AI news". -/
theorem analyzeQuery_timeOnly_no_search_witness :
    (AnalyzeQuery "latest AI news".toList).needsSearch = false ∧
      (AnalyzeQuery "latest AI news".toList).confidence = 40 :=
  analyzeQuery_timeOnly_no_search "latest AI news".toList (by decide)
    (by decide) (by decide) (by decide) (by decide) (by decide)

/-- C10: each scoring category contributes its fixed weight at most once, so
the confidence is always in [-70, 90] and may be negative: the query
"latest news today" matches three time-sensitive keywords yet scores only
40, and "explain this code" scores -70. -/
theorem analyzeQuery_confidence_bounded :
    (∀ q : Str, -70 ≤ (AnalyzeQuery q).confidence ∧
      (AnalyzeQuery q).confidence ≤ 90) ∧
    (AnalyzeQuery "latest news today".toList).confidence = 40 ∧
    (AnalyzeQuery "explain this code".toList).confidence = -70 := by
  refine ⟨fun q => ?_, by decide, by decide⟩
  unfold AnalyzeQuery
  dsimp only
  split
  · norm_num
  · split <;> split <;> split <;> split <;> split <;> norm_num

/-! ### Claims about the text extractor -/

/-- A 600-word text ("w" repeated), used to exercise the truncation branch. -/
def words600 : Str := joinSep [' '] (List.replicate 600 ['w'])

/-- A 400-word text ("w" repeated), used to exercise the unchanged branch. -/
def words400 : Str := joinSep [' '] (List.replicate 400 ['w'])

mutual
/-- Discarded subtrees never contribute: `extractBodyText` is unchanged when
the children of every `skipTags` element are deleted. -/
def pruneSkipped_extract_eq :
    (t : Node) → extractBodyText (pruneSkipped t) = extractBodyText t
  | .text _ => rfl
  | .elem tag cs => by
    by_cases h : tag ∈ skipTags
    · simp [pruneSkipped, extractBodyText, h]
    · simp [pruneSkipped, extractBodyText, h, pruneSkippedList_extract_eq cs]
/-- List version of `pruneSkipped_extract_eq`. -/
def pruneSkippedList_extract_eq :
    (ts : NodeList) →
      extractBodyTextList (pruneSkippedList ts) = extractBodyTextList ts
  | .nil => rfl
  | .cons n ns => by
    simp [pruneSkippedList, extractBodyTextList, pruneSkipped_extract_eq n,
      pruneSkippedList_extract_eq ns]
end

/-- The parsed document for `<script>evil()</script><p>Hello world</p>`
(the parser hoists the leading script into `head`). -/
def exampleDoc : Node :=
  .elem "html".toList (.cons
    (.elem "head".toList (.cons
      (.elem "script".toList (.cons (.text "evil()".toList) .nil)) .nil))
    (.cons
      (.elem "body".toList (.cons
        (.elem "p".toList (.cons (.text "Hello world".toList) .nil)) .nil))
      .nil))

/-- C5: for whitespace-normalized text, `truncateWords` with threshold 500
returns text of more than 500 words as exactly the first 500 words followed
by the "..." continuation marker, and returns text of at most 500 words
unmodified. -/
theorem truncateWords_500_spec (text : Str) :
    ((fields text).length ≤ 500 → truncateWords text 500 = text) ∧
    (500 < (fields text).length →
      truncateWords text 500 =
        joinSep [' '] ((fields text).take 500) ++ "...".toList ∧
      fields (joinSep [' '] ((fields text).take 500)) =
        (fields text).take 500) := by
  constructor
  · intro h
    simp [truncateWords, h]
  · intro h
    have hne : ¬ (fields text).length ≤ 500 := by omega
    refine ⟨by simp [truncateWords, hne], ?_⟩
    refine fields_joinSep _ ?_
    intro w hw
    exact fields_sound text w (List.mem_of_mem_take hw)

set_option maxRecDepth 100000

/-- Witness for C5: a 400-word text is returned unmodified, and a 600-word
text is truncated to its first 500 words plus the marker. -/
theorem truncateWords_500_spec_witness :
    truncateWords words400 500 = words400 ∧
    truncateWords words600 500 =
      joinSep [' '] ((fields words600).take 500) ++ "...".toList :=
  ⟨(truncateWords_500_spec words400).1 (by decide),
   ((truncateWords_500_spec words600).2 (by decide)).1⟩

/-- C7: text occurring only inside script/style/nav/footer/header/aside
elements never reaches the extractor's output (pruning those subtrees does
not change `extractBodyText`), while content-element text is retained: on
the document for `<script>evil()</script><p>Hello world</p>` the extracted
text contains "Hello world" and not "evil()". -/
theorem extractor_skips_noncontent :
    (∀ t : Node, extractBodyText (pruneSkipped t) = extractBodyText t) ∧
    containsSub (ExtractText exampleDoc).2 "Hello world".toList = true ∧
    containsSub (ExtractText exampleDoc).2 "evil()".toList = false :=
  ⟨pruneSkipped_extract_eq, by decide, by decide⟩

/-! ## Bounded fetcher and concurrent crawler (`internal/crawler`)

`crawlSingle` performs one HTTP GET; we embed the network's visible
behaviour as an explicit `FetchOutcome` and the wall clock as an explicit
`elapsed` value. Text extraction (`ExtractText` on raw bytes, i.e. parse
plus the extractor above) is a function parameter, so that theorems can
state that a code path never consults it. -/

/-- The `CrawlResult` struct: one result per requested URL. -/
structure CrawlResult where
  url : Str
  title : Str
  content : Str
  error : Option Str
  duration : Nat
deriving DecidableEq, Repr

/-- The crawler's `contains` helper: length-guarded case-sensitive
equality/prefix test, falling back to case-insensitive substring search. -/
def containsGo (s substr : Str) : Bool :=
  substr.length ≤ s.length &&
    (s = substr ||
      (substr.length < s.length &&
        (isPrefixL substr s ||
          containsSub (toLowerStr s) (toLowerStr substr))))

/-- The outcome of the single GET issued by `crawlSingle`: request
construction failure, transport failure (including timeout/cancellation),
or a response with status, Content-Type header ("" when absent), an
optional body-read failure, and the body read through the size cap. -/
inductive FetchOutcome where
  | reqError (msg : Str)
  | doError (msg : Str)
  | response (status : Nat) (contentType : Str) (readErr : Option Str)
      (body : Str)
deriving DecidableEq, Repr

/-- `crawlSingle`: fetch one URL, populating the failure field rather than
propagating, and recording the elapsed duration on every return path. -/
def crawlSingle (extract : Str → Except Str (Str × Str))
    (env : FetchOutcome) (elapsed : Nat) (urlStr : Str) : CrawlResult :=
  match env with
  | .reqError m =>
    { url := urlStr, title := [], content := [],
      error := some ("failed to create request: ".toList ++ m),
      duration := elapsed }
  | .doError m =>
    { url := urlStr, title := [], content := [],
      error := some ("request failed: ".toList ++ m),
      duration := elapsed }
  | .response status ct readErr body =>
    if status ≠ 200 then
      { url := urlStr, title := [], content := [],
        error := some ("HTTP ".toList ++ (toString status).toList),
        duration := elapsed }
    else if ct ≠ [] ∧ containsGo ct "text/html".toList = false ∧
        containsGo ct "application/xhtml".toList = false then
      { url := urlStr, title := [], content := [],
        error := some ("non-HTML content type: ".toList ++ ct),
        duration := elapsed }
    else
      match readErr with
      | some m =>
        { url := urlStr, title := [], content := [],
          error := some ("failed to read body: ".toList ++ m),
          duration := elapsed }
      | none =>
        match extract body with
        | .error m =>
          { url := urlStr, title := [], content := [],
            error := some ("failed to extract text: ".toList ++ m),
            duration := elapsed }
        | .ok (title, text) =>
          { url := urlStr, title := title, content := text,
            error := none, duration := elapsed }

/-- Every path of `crawlSingle` records the input URL and the elapsed
duration. -/
theorem crawlSingle_url_duration (extract : Str → Except Str (Str × Str))
    (env : FetchOutcome) (elapsed : Nat) (urlStr : Str) :
    (crawlSingle extract env elapsed urlStr).url = urlStr ∧
    (crawlSingle extract env elapsed urlStr).duration = elapsed := by
  cases env with
  | reqError m => simp [crawlSingle]
  | doError m => simp [crawlSingle]
  | response status ct readErr body =>
    simp only [crawlSingle]
    split
    · simp
    · split
      · simp
      · cases readErr with
        | some m => simp
        | none =>
          cases hx : extract body with
          | error m => simp
          | ok p => cases p with | mk a b => simp

/-- The worker body of `CrawlURLs`: `results <- c.crawlSingle(ctx, url)`,
with the per-URL network behaviour and wall-clock made explicit. -/
def workerFetch (extract : Str → Except Str (Str × Str))
    (env : Str → FetchOutcome) (elapsed : Str → Nat) : Str → CrawlResult :=
  fun u => crawlSingle extract (env u) (elapsed u) u

/-- One execution of the `CrawlURLs` worker pool: at every step the
scheduler completes the fetch of an arbitrary pending URL (chosen by the
next schedule entry, reduced mod the number of pending jobs) and appends
its `CrawlResult` to the collected output. The schedule encodes the
nondeterministic completion order of the concurrent workers; the pool stops
when the job queue is drained. -/
def runPool (fetch : Str → CrawlResult) :
    List Nat → List Str → List CrawlResult → List CrawlResult
  | [], _, acc => acc
  | _ :: _, [], acc => acc
  | i :: sched, p :: ps, acc =>
    let j : Fin (p :: ps).length :=
      ⟨i % (p :: ps).length, Nat.mod_lt _ (by simp)⟩
    runPool fetch sched ((p :: ps).eraseIdx j)
      (acc ++ [fetch ((p :: ps).get j)])

/-- `CrawlURLs`: crawl all URLs through the worker pool, collecting one
result per completed job in completion order. -/
def CrawlURLs (fetch : Str → CrawlResult) (sched : List Nat)
    (urls : List Str) : List CrawlResult :=
  runPool fetch sched urls []

/-- Removing the element at a valid index and putting it back in front is a
permutation of the original list. -/
theorem perm_get_cons_eraseIdx {α : Type} :
    ∀ (l : List α) (i : Nat) (h : i < l.length),
      l.Perm (l.get ⟨i, h⟩ :: l.eraseIdx i)
  | _ :: _, 0, _ => by simp [List.eraseIdx]
  | a :: t, i + 1, h => by
    have ih := perm_get_cons_eraseIdx t i (by simpa using h)
    simpa [List.eraseIdx] using (ih.cons a).trans (List.Perm.swap _ _ _)

/-- The pool output is the fetch image of the pending jobs (appended to the
accumulator), up to completion order, whenever the schedule drains the
queue. -/
theorem runPool_perm (fetch : Str → CrawlResult) :
    ∀ (sched : List Nat) (pending : List Str) (acc : List CrawlResult),
      pending.length ≤ sched.length →
      (runPool fetch sched pending acc).Perm (acc ++ pending.map fetch) := by
  intro sched
  induction sched with
  | nil =>
    intro pending acc h
    simp only [List.length_nil, Nat.le_zero] at h
    have hp : pending = [] := List.eq_nil_of_length_eq_zero h
    subst hp
    simp [runPool]
  | cons i sched ih =>
    intro pending acc h
    cases pending with
    | nil => simp [runPool]
    | cons p ps =>
      simp only [runPool]
      have hmod : i % (p :: ps).length < (p :: ps).length :=
        Nat.mod_lt _ (by simp)
      have herase := List.length_eraseIdx_add_one hmod
      have hlen : ((p :: ps).eraseIdx (i % (p :: ps).length)).length ≤
          sched.length := by
        simp only [List.length_cons] at h herase ⊢
        omega
      refine (ih _ _ hlen).trans ?_
      have hperm : ((p :: ps).get ⟨i % (p :: ps).length, hmod⟩ ::
          (p :: ps).eraseIdx (i % (p :: ps).length)).Perm (p :: ps) :=
        (perm_get_cons_eraseIdx (p :: ps) (i % (p :: ps).length) hmod).symm
      rw [List.append_assoc]
      exact List.Perm.append_left acc (hperm.map fetch)

/-! ### Claims about the crawler -/

/-- C1: for every input URL list, every per-URL network behaviour and every
completion order that drains the job queue, `CrawlURLs` returns exactly one
`CrawlResult` per input URL: the length matches, the multiset of result URL
fields equals the multiset of input URLs, and the whole result list is a
permutation of the pointwise fetch of the inputs. -/
theorem crawlURLs_one_result_per_url
    (extract : Str → Except Str (Str × Str)) (env : Str → FetchOutcome)
    (elapsed : Str → Nat) (sched : List Nat) (urls : List Str)
    (hs : urls.length ≤ sched.length) :
    (CrawlURLs (workerFetch extract env elapsed) sched urls).length =
      urls.length ∧
    ((CrawlURLs (workerFetch extract env elapsed) sched urls).map
        (fun r => r.url)).Perm urls ∧
    (CrawlURLs (workerFetch extract env elapsed) sched urls).Perm
      (urls.map (workerFetch extract env elapsed)) := by
  have hperm := runPool_perm (workerFetch extract env elapsed) sched urls [] hs
  simp only [List.nil_append] at hperm
  refine ⟨by simpa using hperm.length_eq, ?_, hperm⟩
  refine (hperm.map (fun r => r.url)).trans ?_
  rw [List.map_map]
  have hid : ((fun (r : CrawlResult) => r.url) ∘
      workerFetch extract env elapsed) = id := by
    funext u
    exact (crawlSingle_url_duration extract (env u) (elapsed u) u).1
  rw [hid, List.map_id]

/-- Concrete witness data: two URLs, the first failing in transport. -/
def wEnv : Str → FetchOutcome := fun u =>
  if u = "http://a.example/".toList then .doError "timeout".toList
  else .response 200 "text/html".toList none "<p>hi</p>".toList

/-- Concrete witness data: extraction always succeeds with fixed output. -/
def wExtract : Str → Except Str (Str × Str) := fun _ =>
  Except.ok ("t".toList, "hi".toList)

/-- Concrete witness data: the two input URLs. -/
def wURLs : List Str :=
  ["http://a.example/".toList, "http://b.example/".toList]

/-- Witness for C1: two URLs, out-of-order completion schedule, one fetch
failing in transport; still one result per URL. -/
theorem crawlURLs_one_result_per_url_witness :
    (CrawlURLs (workerFetch wExtract wEnv (fun _ => 5)) [1, 0]
        wURLs).length = wURLs.length ∧
    ((CrawlURLs (workerFetch wExtract wEnv (fun _ => 5)) [1, 0]
        wURLs).map (fun r => r.url)).Perm wURLs ∧
    (CrawlURLs (workerFetch wExtract wEnv (fun _ => 5)) [1, 0] wURLs).Perm
      (wURLs.map (workerFetch wExtract wEnv (fun _ => 5))) :=
  crawlURLs_one_result_per_url wExtract wEnv (fun _ => 5) [1, 0] wURLs
    (by decide)

/-- C6: a 200 response whose Content-Type is present and neither HTML nor
XHTML makes `crawlSingle` record the unsupported-content-type failure in
the result's error field, with the extraction function never consulted
(the result is a fixed record independent of it), and the elapsed duration
is recorded on this and every other path. -/
theorem crawlSingle_unsupported_content_type
    (extract : Str → Except Str (Str × Str)) (ct body : Str)
    (readErr : Option Str) (elapsed : Nat) (urlStr : Str)
    (hct : ct ≠ [])
    (h1 : containsGo ct "text/html".toList = false)
    (h2 : containsGo ct "application/xhtml".toList = false) :
    crawlSingle extract (.response 200 ct readErr body) elapsed urlStr =
      { url := urlStr, title := [], content := [],
        error := some ("non-HTML content type: ".toList ++ ct),
        duration := elapsed } ∧
    ∀ env : FetchOutcome,
      (crawlSingle extract env elapsed urlStr).duration = elapsed := by
  refine ⟨?_, fun env => (crawlSingle_url_duration extract env elapsed urlStr).2⟩
  have hcond : ct ≠ [] ∧ containsGo ct "text/html".toList = false ∧
      containsGo ct "application/xhtml".toList = false := ⟨hct, h1, h2⟩
  simp only [crawlSingle]
  rw [if_neg (by simp), if_pos hcond]

/-- Witness for C6: a "application/pdf" response is rejected with the
unsupported-content-type error and the duration recorded. -/
theorem crawlSingle_unsupported_content_type_witness :
    crawlSingle (fun _ => Except.error "unused".toList)
        (.response 200 "application/pdf".toList none "%PDF".toList) 7
        "http://x.example/doc.pdf".toList =
      { url := "http://x.example/doc.pdf".toList, title := [], content := [],
        error := some ("non-HTML content type: ".toList ++
          "application/pdf".toList),
        duration := 7 } ∧
    ∀ env : FetchOutcome,
      (crawlSingle (fun _ => Except.error "unused".toList) env 7
        "http://x.example/doc.pdf".toList).duration = 7 :=
  crawlSingle_unsupported_content_type (fun _ => Except.error "unused".toList)
    "application/pdf".toList "%PDF".toList none 7
    "http://x.example/doc.pdf".toList (by decide) (by decide) (by decide)

/-! ## Streaming response splitter (`internal/ollama/enhanced_client.go`)

`streamWithThinking` scans JSON lines from the response body. We embed each
scanned line as `Option Chunk`: `none` for an empty or unparseable line
(skipped), `some c` for a parsed `ChatResponse` chunk. Callback invocations
are recorded in an event trace so ordering claims can be stated. The
scanner's transport error, reported once the lines are exhausted, is an
explicit `Option Str`. -/

/-- One parsed streaming chunk: `Message.Thinking`, `Message.Content`,
and the `Done` flag. -/
structure Chunk where
  thinking : Str
  content : Str
  done : Bool
deriving DecidableEq, Repr

/-- Callback invocations observed by the caller: `OnThinking`, `OnAnswer`,
and `OnDone` (the reasoning-finished signal). -/
inductive Emit where
  | think (s : Str)
  | ans (s : Str)
  | done
deriving DecidableEq, Repr

/-- The loop state of `streamWithThinking`: the two accumulation buffers,
the `wasThinking` / `isFirstAnswer` flags, whether the loop broke on a
done-flagged chunk, and the trace of callback invocations so far. -/
structure SplitState where
  thinkingBuf : Str
  answerBuf : Str
  wasThinking : Bool
  isFirstAnswer : Bool
  stopped : Bool
  trace : List Emit
deriving DecidableEq, Repr

/-- Initial loop state. -/
def initSplit : SplitState :=
  { thinkingBuf := [], answerBuf := [], wasThinking := false,
    isFirstAnswer := true, stopped := false, trace := [] }

/-- The loop body of `streamWithThinking` on one parsed chunk: a nonempty
thinking fragment sets `wasThinking`, is buffered, and goes to `OnThinking`;
a nonempty content fragment fires `OnDone` first if it is the first answer
after thinking, then is buffered and goes to `OnAnswer`; a done flag stops
consumption. -/
def processChunk (st : SplitState) (c : Chunk) : SplitState :=
  let st1 :=
    if c.thinking ≠ [] then
      { st with
        wasThinking := true,
        thinkingBuf := st.thinkingBuf ++ c.thinking,
        trace := st.trace ++ [Emit.think c.thinking] }
    else st
  let st2 :=
    if c.content ≠ [] then
      let st1' :=
        if st1.wasThinking ∧ st1.isFirstAnswer then
          { st1 with
            trace := st1.trace ++ [Emit.done],
            isFirstAnswer := false }
        else st1
      { st1' with
        answerBuf := st1'.answerBuf ++ c.content,
        trace := st1'.trace ++ [Emit.ans c.content] }
    else st1
  if c.done then { st2 with stopped := true } else st2

/-- The scanner loop: skip unparseable lines, process parsed chunks, stop
after a done-flagged chunk. -/
def runSplit : List (Option Chunk) → SplitState → SplitState
  | [], st => st
  | none :: ls, st => runSplit ls st
  | some c :: ls, st =>
    let st' := processChunk st c
    if c.done then st' else runSplit ls st'

/-- `streamWithThinking`: run the scanner loop and return the accumulated
thinking and answer text; if the lines were exhausted because the transport
failed (`scanErr`), return the buffers together with the wrapped error. -/
def streamWithThinking (lines : List (Option Chunk))
    (scanErr : Option Str) : Str × Str × Option Str :=
  let st := runSplit lines initSplit
  if st.stopped then (st.thinkingBuf, st.answerBuf, none)
  else
    match scanErr with
    | some e =>
      (st.thinkingBuf, st.answerBuf, some ("scanner error: ".toList ++ e))
    | none => (st.thinkingBuf, st.answerBuf, none)

/-- A chunk carrying only a reasoning fragment. -/
def thinkChunk (s : Str) : Chunk :=
  { thinking := s, content := [], done := false }

/-- A chunk carrying only an answer fragment. -/
def ansChunk (s : Str) : Chunk :=
  { thinking := [], content := s, done := false }

/-- The terminal chunk (`done: true`, no content). -/
def doneChunk : Chunk := { thinking := [], content := [], done := true }

/-- Processing a run of nonempty reasoning fragments buffers and emits them
in order and sets `wasThinking`; no other state component changes. -/
theorem runSplit_think :
    ∀ (rs : List Str) (rest : List (Option Chunk)) (st : SplitState),
      (∀ r ∈ rs, r ≠ []) →
      runSplit (rs.map (fun r => some (thinkChunk r)) ++ rest) st =
        runSplit rest
          { st with
            thinkingBuf := st.thinkingBuf ++ rs.flatten,
            wasThinking := st.wasThinking || !rs.isEmpty,
            trace := st.trace ++ rs.map Emit.think } := by
  intro rs
  induction rs with
  | nil =>
    intro rest st _
    cases st
    simp
  | cons r rs ih =>
    intro rest st hr
    have hrne : r ≠ [] := hr r (by simp)
    simp only [List.map_cons, List.cons_append, runSplit]
    have hpc : processChunk st (thinkChunk r) =
        { st with
          wasThinking := true,
          thinkingBuf := st.thinkingBuf ++ r,
          trace := st.trace ++ [Emit.think r] } := by
      simp [processChunk, thinkChunk, hrne]
    rw [show (thinkChunk r).done = false from rfl]
    simp only [Bool.false_eq_true, if_false, hpc, List.append_eq]
    rw [ih rest _ (fun x hx => hr x (by simp [hx]))]
    simp [List.append_assoc]

/-- Once `wasThinking` is false or `isFirstAnswer` is false, a run of
nonempty answer fragments is buffered and emitted in order without firing
`OnDone`, and the flags keep that property. -/
theorem runSplit_ans :
    ∀ (as : List Str) (rest : List (Option Chunk)) (st : SplitState),
      (∀ a ∈ as, a ≠ []) →
      (st.wasThinking = false ∨ st.isFirstAnswer = false) →
      runSplit (as.map (fun a => some (ansChunk a)) ++ rest) st =
        runSplit rest
          { st with
            answerBuf := st.answerBuf ++ as.flatten,
            trace := st.trace ++ as.map Emit.ans } := by
  intro as
  induction as with
  | nil =>
    intro rest st _ _
    cases st
    simp
  | cons a as ih =>
    intro rest st ha hflag
    have hane : a ≠ [] := ha a (by simp)
    simp only [List.map_cons, List.cons_append, runSplit]
    have hcond : ¬ (st.wasThinking ∧ st.isFirstAnswer) := by
      rcases hflag with h | h <;> simp [h]
    have hpc : processChunk st (ansChunk a) =
        { st with
          answerBuf := st.answerBuf ++ a,
          trace := st.trace ++ [Emit.ans a] } := by
      simp [processChunk, ansChunk, hane, hcond]
    rw [show (ansChunk a).done = false from rfl]
    simp only [Bool.false_eq_true, if_false, hpc, List.append_eq]
    rw [ih rest _ (fun x hx => ha x (by simp [hx])) (by simpa using hflag)]
    simp [List.append_assoc]

/-- The terminal chunk only stops the loop. -/
theorem runSplit_done (rest : List (Option Chunk)) (st : SplitState) :
    runSplit (some doneChunk :: rest) st = { st with stopped := true } := by
  simp [runSplit, processChunk, doneChunk]

/-- With thinking seen and no answer yet, a nonempty run of answer
fragments fires `OnDone` exactly once, before the first `OnAnswer`. -/
theorem runSplit_answer_after_thinking (as : List Str)
    (rest : List (Option Chunk)) (st : SplitState)
    (ha : ∀ a ∈ as, a ≠ []) (hw : st.wasThinking = true)
    (hf : st.isFirstAnswer = true) (hne : as ≠ []) :
    runSplit (as.map (fun a => some (ansChunk a)) ++ rest) st =
      runSplit rest
        { st with
          answerBuf := st.answerBuf ++ as.flatten,
          isFirstAnswer := false,
          trace := st.trace ++ [Emit.done] ++ as.map Emit.ans } := by
  cases as with
  | nil => exact absurd rfl hne
  | cons a as' =>
    have hane : a ≠ [] := ha a (by simp)
    simp only [List.map_cons, List.cons_append, runSplit]
    have hpc : processChunk st (ansChunk a) =
        { st with
          answerBuf := st.answerBuf ++ a,
          isFirstAnswer := false,
          trace := st.trace ++ [Emit.done, Emit.ans a] } := by
      simp [processChunk, ansChunk, hane, hw, hf]
    rw [show (ansChunk a).done = false from rfl]
    simp only [Bool.false_eq_true, if_false, hpc, List.append_eq]
    rw [runSplit_ans as' rest _ (fun x hx => ha x (by simp [hx]))
      (Or.inr rfl)]
    simp [List.append_assoc]

/-! ### Claims about the splitter -/

/-- C4: for a stream of one or more reasoning fragments, then one or more
answer fragments, then the terminal marker, `OnDone` fires exactly once,
strictly after all `OnThinking` emissions and strictly before the first
`OnAnswer` emission; and a stream with no reasoning fragment never fires
`OnDone`. -/
theorem splitter_onDone_once (rs as : List Str)
    (hrs : rs ≠ []) (has : as ≠ [])
    (hr : ∀ r ∈ rs, r ≠ []) (ha : ∀ a ∈ as, a ≠ []) :
    (runSplit (rs.map (fun r => some (thinkChunk r)) ++
        as.map (fun a => some (ansChunk a)) ++ [some doneChunk])
        initSplit).trace =
      rs.map Emit.think ++ [Emit.done] ++ as.map Emit.ans ∧
    ∀ as' : List Str, (∀ a ∈ as', a ≠ []) →
      Emit.done ∉ (runSplit (as'.map (fun a => some (ansChunk a)) ++
        [some doneChunk]) initSplit).trace := by
  constructor
  · obtain ⟨r, rs', rfl⟩ := List.exists_cons_of_ne_nil hrs
    rw [List.append_assoc, runSplit_think (r :: rs') _ initSplit hr]
    rw [runSplit_answer_after_thinking as _ _ ha (by simp [initSplit])
      (by simp [initSplit]) has]
    rw [runSplit_done]
    simp [initSplit]
  · intro as' ha'
    rw [runSplit_ans as' _ initSplit ha' (Or.inl rfl)]
    rw [runSplit_done]
    simp [initSplit]

/-- Witness for C4: one reasoning fragment, one answer fragment, terminal
marker; and an answer-only stream never fires `OnDone`. -/
theorem splitter_onDone_once_witness :
    (runSplit (["I think".toList].map (fun r => some (thinkChunk r)) ++
        ["The answer".toList].map (fun a => some (ansChunk a)) ++
        [some doneChunk]) initSplit).trace =
      ["I think".toList].map Emit.think ++ [Emit.done] ++
        ["The answer".toList].map Emit.ans ∧
    Emit.done ∉ (runSplit (["ok".toList].map (fun a => some (ansChunk a)) ++
        [some doneChunk]) initSplit).trace :=
  ⟨(splitter_onDone_once ["I think".toList] ["The answer".toList]
      (by decide) (by decide) (by decide) (by decide)).1,
   (splitter_onDone_once ["I think".toList] ["The answer".toList]
      (by decide) (by decide) (by decide) (by decide)).2
      ["ok".toList] (by decide)⟩

/-- A chunk without the done flag appends its fragments to the buffers and
leaves the stop flag unchanged. -/
theorem processChunk_buffers (st : SplitState) (c : Chunk)
    (hc : c.done = false) :
    (processChunk st c).thinkingBuf = st.thinkingBuf ++ c.thinking ∧
    (processChunk st c).answerBuf = st.answerBuf ++ c.content ∧
    (processChunk st c).stopped = st.stopped := by
  by_cases h1 : c.thinking = [] <;> by_cases h2 : c.content = [] <;>
    simp [processChunk, hc, h1, h2] <;> split <;> simp

/-- Over done-free chunks the loop accumulates every thinking and content
fragment and never stops. -/
theorem runSplit_no_done_buffers :
    ∀ (cs : List Chunk) (st : SplitState), (∀ c ∈ cs, c.done = false) →
      (runSplit (cs.map some) st).thinkingBuf =
        st.thinkingBuf ++ (cs.map (fun c => c.thinking)).flatten ∧
      (runSplit (cs.map some) st).answerBuf =
        st.answerBuf ++ (cs.map (fun c => c.content)).flatten ∧
      (runSplit (cs.map some) st).stopped = st.stopped := by
  intro cs
  induction cs with
  | nil => intro st _; simp [runSplit]
  | cons c cs ih =>
    intro st h
    have hc : c.done = false := h c (by simp)
    simp only [List.map_cons, runSplit, hc, Bool.false_eq_true, if_false]
    obtain ⟨h1, h2, h3⟩ := ih (processChunk st c)
      (fun x hx => h x (by simp [hx]))
    obtain ⟨b1, b2, b3⟩ := processChunk_buffers st c hc
    exact ⟨by simp [h1, b1, List.append_assoc],
      by simp [h2, b2, List.append_assoc], by simp [h3, b3]⟩

/-- C8: when the transport fails after some done-free chunks were consumed,
`streamWithThinking` returns all thinking and answer text accumulated so
far together with the wrapped scanner error. -/
theorem streamWithThinking_partial_on_error (cs : List Chunk) (e : Str)
    (h : ∀ c ∈ cs, c.done = false) :
    streamWithThinking (cs.map some) (some e) =
      ((cs.map (fun c => c.thinking)).flatten,
       (cs.map (fun c => c.content)).flatten,
       some ("scanner error: ".toList ++ e)) := by
  obtain ⟨h1, h2, h3⟩ := runSplit_no_done_buffers cs initSplit h
  rw [show initSplit.thinkingBuf = [] from rfl, List.nil_append] at h1
  rw [show initSplit.answerBuf = [] from rfl, List.nil_append] at h2
  rw [show initSplit.stopped = false from rfl] at h3
  simp [streamWithThinking, h1, h2, h3]

/-- Witness for C8: a thinking chunk and an answer chunk followed by a
transport failure yield both fragments plus the error. -/
theorem streamWithThinking_partial_on_error_witness :
    streamWithThinking
        ([thinkChunk "I".toList, ansChunk "ok".toList].map some)
        (some "conn reset".toList) =
      (([thinkChunk "I".toList, ansChunk "ok".toList].map
          (fun c => c.thinking)).flatten,
       ([thinkChunk "I".toList, ansChunk "ok".toList].map
          (fun c => c.content)).flatten,
       some ("scanner error: ".toList ++ "conn reset".toList)) :=
  streamWithThinking_partial_on_error
    [thinkChunk "I".toList, ansChunk "ok".toList] "conn reset".toList
    (by decide)

/-! ## Multi-search URL de-duplication (`performMultiSearch` in `main.go`)

For two or more queries, `performMultiSearch` runs the searches in order;
for each successful search it filters the result URLs against the shared
`seenURLs` set (marking each kept URL seen immediately) and dispatches the
surviving nonempty list to `CrawlURLs`. We embed the successful per-query
result URL lists as `batches` and compute the sequence of URL lists
dispatched to the crawler; the `seenURLs` map becomes a list with
membership. -/

/-- The URLs of one batch that survive the `seenURLs` filter, in order. -/
def filterBatchNew : List Str → List Str → List Str
  | [], _ => []
  | u :: us, seen =>
    if u ∈ seen then filterBatchNew us seen
    else u :: filterBatchNew us (u :: seen)

/-- The `seenURLs` set after filtering one batch. -/
def filterBatchSeen : List Str → List Str → List Str
  | [], seen => seen
  | u :: us, seen =>
    if u ∈ seen then filterBatchSeen us seen
    else filterBatchSeen us (u :: seen)

/-- `performMultiSearch`: the URL lists dispatched to the crawler, one per
search whose filtered URL list is nonempty, threading `seenURLs` through. -/
def performMultiSearch : List (List Str) → List Str → List (List Str)
  | [], _ => []
  | b :: bs, seen =>
    let ns := filterBatchNew b seen
    let rest := performMultiSearch bs (filterBatchSeen b seen)
    if ns = [] then rest else ns :: rest

/-- Membership in the updated seen set: the batch's URLs plus the old set. -/
theorem mem_filterBatchSeen :
    ∀ (us seen : List Str) (x : Str),
      x ∈ filterBatchSeen us seen ↔ x ∈ us ∨ x ∈ seen := by
  intro us
  induction us with
  | nil => intro seen x; simp [filterBatchSeen]
  | cons u us ih =>
    intro seen x
    by_cases h : u ∈ seen
    · simp only [filterBatchSeen, if_pos h, ih]
      constructor
      · rintro (hx | hx)
        · exact Or.inl (by simp [hx])
        · exact Or.inr hx
      · rintro (hx | hx)
        · rcases List.mem_cons.mp hx with rfl | hx
          · exact Or.inr h
          · exact Or.inl hx
        · exact Or.inr hx
    · simp only [filterBatchSeen, if_neg h, ih]
      constructor
      · rintro (hx | hx)
        · exact Or.inl (by simp [hx])
        · rcases List.mem_cons.mp hx with rfl | hx
          · exact Or.inl (by simp)
          · exact Or.inr hx
      · rintro (hx | hx)
        · rcases List.mem_cons.mp hx with rfl | hx
          · exact Or.inr (by simp)
          · exact Or.inl hx
        · exact Or.inr (List.mem_cons_of_mem u hx)

/-- Filtered URLs were not previously seen. -/
theorem filterBatchNew_not_seen :
    ∀ (us seen : List Str) (x : Str),
      x ∈ filterBatchNew us seen → x ∉ seen := by
  intro us
  induction us with
  | nil => intro seen x hx; simp [filterBatchNew] at hx
  | cons u us ih =>
    intro seen x hx
    by_cases h : u ∈ seen
    · exact ih seen x (by simpa [filterBatchNew, h] using hx)
    · simp only [filterBatchNew, if_neg h] at hx
      rcases List.mem_cons.mp hx with rfl | hx
      · exact h
      · intro hxs
        exact ih (u :: seen) x hx (by simp [hxs])

/-- Filtered URLs come from the batch. -/
theorem filterBatchNew_subset :
    ∀ (us seen : List Str) (x : Str),
      x ∈ filterBatchNew us seen → x ∈ us := by
  intro us
  induction us with
  | nil => intro seen x hx; simp [filterBatchNew] at hx
  | cons u us ih =>
    intro seen x hx
    by_cases h : u ∈ seen
    · simp only [filterBatchNew, if_pos h] at hx
      exact List.mem_cons_of_mem u (ih seen x hx)
    · simp only [filterBatchNew, if_neg h] at hx
      rcases List.mem_cons.mp hx with rfl | hx
      · exact List.mem_cons_self x us
      · exact List.mem_cons_of_mem u (ih (u :: seen) x hx)

/-- The filtered URL list of one batch has no duplicates. -/
theorem filterBatchNew_nodup :
    ∀ (us seen : List Str), (filterBatchNew us seen).Nodup := by
  intro us
  induction us with
  | nil => intro seen; simp [filterBatchNew]
  | cons u us ih =>
    intro seen
    by_cases h : u ∈ seen
    · simpa [filterBatchNew, h] using ih seen
    · simp only [filterBatchNew, if_neg h, List.nodup_cons]
      refine ⟨?_, ih (u :: seen)⟩
      intro hu
      exact filterBatchNew_not_seen us (u :: seen) u hu (by simp)

/-- The URLs dispatched by `performMultiSearch` are pairwise distinct
across all batches, and none of them was in the initial seen set. -/
theorem performMultiSearch_nodup_aux :
    ∀ (bs : List (List Str)) (seen : List Str),
      ((performMultiSearch bs seen).flatten).Nodup ∧
      ∀ x ∈ (performMultiSearch bs seen).flatten, x ∉ seen := by
  intro bs
  induction bs with
  | nil => intro seen; simp [performMultiSearch]
  | cons b bs ih =>
    intro seen
    obtain ⟨ihn, ihs⟩ := ih (filterBatchSeen b seen)
    by_cases h : filterBatchNew b seen = []
    · refine ⟨by simpa [performMultiSearch, h] using ihn, ?_⟩
      intro x hx hxs
      have hx' : x ∈ (performMultiSearch bs (filterBatchSeen b seen)).flatten := by
        simpa [performMultiSearch, h] using hx
      exact ihs x hx' ((mem_filterBatchSeen b seen x).mpr (Or.inr hxs))
    · have hflat : (performMultiSearch (b :: bs) seen).flatten =
          filterBatchNew b seen ++
            (performMultiSearch bs (filterBatchSeen b seen)).flatten := by
        simp [performMultiSearch, h]
      constructor
      · rw [hflat, List.nodup_append]
        refine ⟨filterBatchNew_nodup b seen, ihn, ?_⟩
        intro x hx hy
        have hxseen : x ∈ filterBatchSeen b seen :=
          (mem_filterBatchSeen b seen x).mpr
            (Or.inl (filterBatchNew_subset b seen x hx))
        exact ihs x hy hxseen
      · intro x hx hxs
        rw [hflat] at hx
        rcases List.mem_append.mp hx with hx | hx
        · exact filterBatchNew_not_seen b seen x hx hxs
        · exact ihs x hx ((mem_filterBatchSeen b seen x).mpr (Or.inr hxs))

/-! ### Claim about multi-search -/

/-- C9: across two or more searches in one turn, each distinct URL is
dispatched to the crawler at most once over all crawl batches: the
concatenation of all dispatched URL lists has no duplicates. -/
theorem performMultiSearch_dispatches_each_url_once
    (batches : List (List Str)) (h2 : 2 ≤ batches.length) :
    ((performMultiSearch batches []).flatten).Nodup :=
  (performMultiSearch_nodup_aux batches []).1

/-- Witness for C9: two overlapping search result batches dispatch the
shared URL only once. -/
theorem performMultiSearch_dispatches_each_url_once_witness :
    ((performMultiSearch
        [["http://a.example/".toList, "http://b.example/".toList],
         ["http://b.example/".toList, "http://c.example/".toList]]
        []).flatten).Nodup :=
  performMultiSearch_dispatches_each_url_once
    [["http://a.example/".toList, "http://b.example/".toList],
     ["http://b.example/".toList, "http://c.example/".toList]]
    (by decide)

end WebOllama
